import Mathlib

/-!
Verification of the JaPa4Py core: the graph builder and reference resolver
(`src/_ast_builder.py`), the subtree-partition operation and fake-node
allocator (`src/ast.py`), and the computed-fields registry
(`src/_computed_fields_registry.py`).

The javalang parser is an external collaborator: its values are modelled by
the inductive types below.  Python dictionaries keyed by strings are
modelled as insertion-ordered association lists, the networkx `DiGraph` as
an insertion-ordered node list plus an edge list, and a raised exception as
the `error` case of `Except`.  Python object identity of javalang nodes
(the key of `_javalang_node_to_index_map`) is modelled by a `pyid : Nat`
tag carried on every node.
-/

namespace JaPa

/-- Internal node-type tags (`ast_node_type.ASTNodeType`).  Only the tags
the core inspects by name are distinguished; every other tag is carried as
`tag s`. -/
inductive ASTNodeType where
  | METHOD_DECLARATION
  | LAMBDA_EXPRESSION
  | METHOD_INVOCATION
  | MEMBER_REFERENCE
  | COLLECTION
  | STRING
  | tag (s : String)
deriving DecidableEq, Repr

/-- A member of a javalang set value (`Set[Any]`): a string, the Python
`None` value, or any other value, carried with its runtime type name (used in the
`ValueError` message of `_add_javalang_collection_node`). -/
inductive JSetItem where
  | jstr (s : String)
  | jnone
  | jother (tyName : String)
deriving DecidableEq, Repr

mutual

/-- A javalang parse-tree node: Python identity tag, resolved internal node
type, the catalog-declared attributes (name/value pairs in catalog order),
the `children` enumeration, and the optional source line of its position. -/
inductive JNode where
  | mk (pyid : Nat) (ntype : ASTNodeType) (attrs : JAttrs) (children : JChildren)
      (line : Option Int)

/-- A javalang attribute value: a node, a list (any nesting), an integer, a
string, `None`, or any other shape. -/
inductive JAttr where
  | jnode (n : JNode)
  | jlist (l : JAttrList)
  | jint (i : Int)
  | jstr (s : String)
  | jnull
  | jother

/-- The attribute name/value pairs of a javalang node, in catalog order. -/
inductive JAttrs where
  | nil
  | cons (k : String) (v : JAttr) (rest : JAttrs)

/-- A list of javalang attribute values. -/
inductive JAttrList where
  | nil
  | cons (v : JAttr) (rest : JAttrList)

/-- A value appearing in a javalang `children` enumeration: a node, a set,
a string, a nested list, or anything else (notably `None`), which the
builder drops. -/
inductive JChild where
  | jnode (n : JNode)
  | jset (items : List JSetItem)
  | jstr (s : String)
  | jlist (l : JChildren)
  | jnone

/-- A list of `children` entries. -/
inductive JChildren where
  | nil
  | cons (c : JChild) (rest : JChildren)

end

def JNode.pyid : JNode → Nat
  | .mk p _ _ _ _ => p

mutual

/-- A value stored in a graph-node attribute.  Before resolution it may be
a raw javalang node (`jnode`); after resolution such values have been
replaced by `ref` (an `ASTNodeReference` wrapping the target node id).
`ntype` is the value of the `node_type` attribute, and `gother` stands for
any value shape outside the catalog of the resolver. -/
inductive GAttr where
  | jnode (n : JNode)
  | glist (l : GAttrList)
  | gint (i : Int)
  | gstr (s : String)
  | gnull
  | ref (id : Int)
  | ntype (t : ASTNodeType)
  | gother

/-- A list of graph-attribute values. -/
inductive GAttrList where
  | nil
  | cons (v : GAttr) (rest : GAttrList)

end

mutual

/-- Copying a javalang attribute value into the graph
(`{attr_name: getattr(javalang_node, attr_name) ...}` in
`_add_javalang_standard_node`); the value itself is taken as-is. -/
def JAttr.toGAttr : JAttr → GAttr
  | .jnode n => .jnode n
  | .jlist l => .glist (JAttrList.toGAttrList l)
  | .jint i => .gint i
  | .jstr s => .gstr s
  | .jnull => .gnull
  | .jother => .gother

def JAttrList.toGAttrList : JAttrList → GAttrList
  | .nil => .nil
  | .cons v rest => .cons v.toGAttr (JAttrList.toGAttrList rest)

def JAttrs.toGraphAttrs : JAttrs → List (String × GAttr)
  | .nil => []
  | .cons k v rest => (k, v.toGAttr) :: JAttrs.toGraphAttrs rest

end

/-- Lookup in an attribute dictionary (Python `attributes[name]`, totalized
to `Option`). -/
def getAttr : List (String × GAttr) → String → Option GAttr
  | [], _ => none
  | (k, v) :: rest, k2 => if k = k2 then some v else getAttr rest k2

/-- Update in an attribute dictionary (`attributes[name] = value`): replace
the existing entry, or append a new one. -/
def setAttr : List (String × GAttr) → String → GAttr → List (String × GAttr)
  | [], k2, v2 => [(k2, v2)]
  | (k, v) :: rest, k2, v2 =>
      if k = k2 then (k2, v2) :: rest else (k, v) :: setAttr rest k2 v2

/-- The builder state: the networkx graph (node list in insertion order
with attribute dictionaries, plus an edge list in insertion order) and the
identity map `_javalang_node_to_index_map` (latest insertion first). -/
structure BuildState where
  nodes : List (Int × List (String × GAttr))
  edges : List (Int × Int)
  idMap : List (Nat × Int)

/-- `self._graph.add_node(node_index, **attributes)` for the fresh index
`len(self._graph) + 1`, as computed by every insertion site. -/
def BuildState.addNode (st : BuildState) (attrs : List (String × GAttr)) :
    BuildState × Int :=
  let idx : Int := ((st.nodes.length + 1 : Nat) : Int)
  ({ st with nodes := st.nodes ++ [(idx, attrs)] }, idx)

/-- The value stored under `line`: the line of the position, or `None`. -/
def lineAttr : Option Int → GAttr
  | some l => .gint l
  | none => .gnull

/-- Build-time and resolution-time failures: the `ValueError` of
`_add_javalang_collection_node`, the `KeyError` of
`_create_reference_to_node` (a broken reference), and the `RuntimeError` of
`_replace_javalang_nodes_in_list`. -/
inductive BuildError where
  | malformedCollection (tyName : String)
  | brokenReference (pyid : Nat)
  | cannotClassifyAttribute
deriving DecidableEq, Repr

/-- `_post_process_javalang_attributes`: normalize an absent method body to
`[]`, a lambda body that is a single node to a one-element list, and an
empty-string qualifier of a call or member reference to `None`. -/
def postProcessJavalangAttributes (nt : ASTNodeType)
    (attrs : List (String × GAttr)) : List (String × GAttr) :=
  let attrs1 :=
    if nt = .METHOD_DECLARATION then
      match getAttr attrs "body" with
      | some .gnull => setAttr attrs "body" (.glist .nil)
      | _ => attrs
    else attrs
  let attrs2 :=
    if nt = .LAMBDA_EXPRESSION then
      match getAttr attrs1 "body" with
      | some (.jnode n) =>
          setAttr attrs1 "body" (.glist (.cons (.jnode n) .nil))
      | _ => attrs1
    else attrs1
  if nt = .METHOD_INVOCATION ∨ nt = .MEMBER_REFERENCE then
    match getAttr attrs2 "qualifier" with
    | some (.gstr s) =>
        if s = "" then setAttr attrs2 "qualifier" .gnull else attrs2
    | _ => attrs2
  else attrs2

/-- `_add_javalang_standard_node`: copy the catalog attributes, stamp
`node_type` and `line`, post-process, and insert under index
`len(graph) + 1`. -/
def addJavalangStandardNode (st : BuildState) (nt : ASTNodeType)
    (attrs : JAttrs) (line : Option Int) : BuildState × Int :=
  let base := setAttr (setAttr attrs.toGraphAttrs "node_type" (.ntype nt))
    "line" (lineAttr line)
  st.addNode (postProcessJavalangAttributes nt base)

/-- The attribute dict `_add_javalang_string_node` stores. -/
def stringNodeAttrs (s : String) : List (String × GAttr) :=
  [("node_type", .ntype .STRING), ("string", .gstr s), ("line", .gnull)]

/-- The attribute dict `_add_javalang_collection_node` stores. -/
def collectionNodeAttrs : List (String × GAttr) :=
  [("node_type", .ntype .COLLECTION), ("line", .gnull)]

/-- `_add_javalang_string_node`. -/
def addJavalangStringNode (st : BuildState) (s : String) : BuildState × Int :=
  st.addNode (stringNodeAttrs s)

/-- The member loop of `_add_javalang_collection_node`: a string member
becomes a String leaf linked under the collection node, `None` is skipped,
anything else raises `ValueError` with the runtime type of the member. -/
def addCollectionItems (st : BuildState) (collIdx : Int) :
    List JSetItem → Except BuildError BuildState
  | [] => .ok st
  | .jstr s :: rest =>
      match addJavalangStringNode st s with
      | (st1, sIdx) =>
          addCollectionItems
            { st1 with edges := st1.edges ++ [(collIdx, sIdx)] } collIdx rest
  | .jnone :: rest => addCollectionItems st collIdx rest
  | .jother tyName :: _ => .error (.malformedCollection tyName)

/-- `_add_javalang_collection_node`. -/
def addJavalangCollectionNode (st : BuildState) (items : List JSetItem) :
    Except BuildError (BuildState × Int) :=
  match st.addNode collectionNodeAttrs with
  | (st1, idx) =>
      match addCollectionItems st1 idx items with
      | .ok st2 => .ok (st2, idx)
      | .error e => .error e

mutual

/-- `_add_subtree_from_javalang_node` combined with the dispatch of
`_add_javalang_node`: a javalang node is inserted as a standard node,
recorded in the identity map, and its children are added under it; a set
becomes a collection node; a string becomes a string node; anything else
(a list reaching here, or `None`) yields the sentinel index `-1` and is
dropped. -/
def addSubtreeFromJavalangNode (st : BuildState) :
    JChild → Except BuildError (BuildState × Int)
  | .jnode (.mk pyid nt attrs children line) =>
      match addJavalangStandardNode st nt attrs line with
      | (st1, idx) =>
          match addJavalangChildren
              { st1 with idMap := (pyid, idx) :: st1.idMap } children idx with
          | .ok st2 => .ok (st2, idx)
          | .error e => .error e
  | .jset items =>
      match addJavalangCollectionNode st items with
      | .ok (st1, idx) => .ok (st1, idx)
      | .error e => .error e
  | .jstr s => .ok (addJavalangStringNode st s)
  | .jlist _ => .ok (st, -1)
  | .jnone => .ok (st, -1)

/-- `_add_javalang_children`: nested lists are flattened by recursion; each
non-list child is built and, when it produced a node, linked under the
parent. -/
def addJavalangChildren (st : BuildState) :
    JChildren → Int → Except BuildError BuildState
  | .nil, _ => .ok st
  | .cons (.jlist l) rest, parent =>
      match addJavalangChildren st l parent with
      | .ok st1 => addJavalangChildren st1 rest parent
      | .error e => .error e
  | .cons c rest, parent =>
      match addSubtreeFromJavalangNode st c with
      | .ok (st1, idx) =>
          let st2 := if idx ≠ -1
            then { st1 with edges := st1.edges ++ [(parent, idx)] } else st1
          addJavalangChildren st2 rest parent
      | .error e => .error e

end

/-- `_javalang_node_to_index_map` lookup (Python dict indexing, keyed by
node identity). -/
def lookupId : List (Nat × Int) → Nat → Option Int
  | [], _ => none
  | (p, i) :: rest, p2 => if p = p2 then some i else lookupId rest p2

/-- `_create_reference_to_node`: a dict lookup that raises `KeyError` (a
broken reference) when the node was never recorded. -/
def createReferenceToNode (m : List (Nat × Int)) (n : JNode) :
    Except BuildError GAttr :=
  match lookupId m n.pyid with
  | some i => .ok (.ref i)
  | none => .error (.brokenReference n.pyid)

/-- `_replace_javalang_nodes_in_list`: nodes become references, nested
lists are walked recursively, integers, strings and `None` are kept, and
any other shape raises `RuntimeError`. -/
def replaceJavalangNodesInList (m : List (Nat × Int)) :
    GAttrList → Except BuildError GAttrList
  | .nil => .ok .nil
  | .cons (.jnode n) rest =>
      match createReferenceToNode m n with
      | .ok r =>
          match replaceJavalangNodesInList m rest with
          | .ok rest2 => .ok (.cons r rest2)
          | .error e => .error e
      | .error e => .error e
  | .cons (.glist l) rest =>
      match replaceJavalangNodesInList m l with
      | .ok l2 =>
          match replaceJavalangNodesInList m rest with
          | .ok rest2 => .ok (.cons (.glist l2) rest2)
          | .error e => .error e
      | .error e => .error e
  | .cons (.gint i) rest =>
      match replaceJavalangNodesInList m rest with
      | .ok rest2 => .ok (.cons (.gint i) rest2)
      | .error e => .error e
  | .cons (.gstr s) rest =>
      match replaceJavalangNodesInList m rest with
      | .ok rest2 => .ok (.cons (.gstr s) rest2)
      | .error e => .error e
  | .cons .gnull rest =>
      match replaceJavalangNodesInList m rest with
      | .ok rest2 => .ok (.cons .gnull rest2)
      | .error e => .error e
  | .cons (.ref _) _ => .error .cannotClassifyAttribute
  | .cons (.ntype _) _ => .error .cannotClassifyAttribute
  | .cons .gother _ => .error .cannotClassifyAttribute

/-- The body of the attribute loop in `_replace_javalang_nodes_in_attributes`:
a raw node becomes a reference, a list is rewritten, and every other value
is left untouched. -/
def resolveAttrValue (m : List (Nat × Int)) (v : GAttr) :
    Except BuildError GAttr :=
  match v with
  | .jnode n => createReferenceToNode m n
  | .glist l =>
      match replaceJavalangNodesInList m l with
      | .ok l2 => .ok (.glist l2)
      | .error e => .error e
  | v2 => .ok v2

/-- The inner loop of `_replace_javalang_nodes_in_attributes` over one
attribute dictionary of one node. -/
def resolveAttrs (m : List (Nat × Int)) :
    List (String × GAttr) → Except BuildError (List (String × GAttr))
  | [] => .ok []
  | (k, v) :: rest =>
      match resolveAttrValue m v with
      | .ok v2 =>
          match resolveAttrs m rest with
          | .ok rest2 => .ok ((k, v2) :: rest2)
          | .error e => .error e
      | .error e => .error e

/-- `_replace_javalang_nodes_in_attributes` over the whole graph. -/
def replaceJavalangNodesInAttributes (m : List (Nat × Int)) :
    List (Int × List (String × GAttr)) →
    Except BuildError (List (Int × List (String × GAttr)))
  | [] => .ok []
  | (i, attrs) :: rest =>
      match resolveAttrs m attrs with
      | .ok attrs2 =>
          match replaceJavalangNodesInAttributes m rest with
          | .ok rest2 => .ok ((i, attrs2) :: rest2)
          | .error e => .error e
      | .error e => .error e

/-- `AstBuilder.build` after parsing: create the initial state, add the
subtree of the javalang root, run the resolver pass, and return the graph
(nodes and edges) together with the root id. -/
def build (root : JChild) :
    Except BuildError ((List (Int × List (String × GAttr)) × List (Int × Int)) × Int) :=
  match addSubtreeFromJavalangNode ⟨[], [], []⟩ root with
  | .ok (st, rootId) =>
      match replaceJavalangNodesInAttributes st.idMap st.nodes with
      | .ok nodes2 => .ok ((nodes2, st.edges), rootId)
      | .error e => .error e
  | .error e => .error e

/-! ## Computed fields registry (`_computed_fields_registry.py`)

`_ComputedFieldsRegistry._registry` is a `defaultdict` from node type to a
dict from field name to computator; both dicts are modelled as
insertion-ordered association lists with overwrite-or-append update, and a
missing node type reads as the empty field dict.  The result of
`_is_in_interactive_shell()` is the `interactive` parameter. -/

/-- Lookup of a field name in the field dict of one type. -/
def lookupField {α : Type} : List (String × α) → String → Option α
  | [], _ => none
  | (k, v) :: rest, k2 => if k = k2 then some v else lookupField rest k2

/-- `computed_fields[name] = compute_field`: overwrite or append. -/
def setField {α : Type} : List (String × α) → String → α → List (String × α)
  | [], k2, v2 => [(k2, v2)]
  | (k, v) :: rest, k2, v2 =>
      if k = k2 then (k2, v2) :: rest else (k, v) :: setField rest k2 v2

/-- The registry table, node type → field dict. -/
abbrev Registry (α : Type) : Type := List (ASTNodeType × List (String × α))

/-- `self._registry[node_type]` read (`defaultdict` yields `{}` when
absent), also the behaviour of `get_fields`. -/
def getFields {α : Type} : Registry α → ASTNodeType → List (String × α)
  | [], _ => []
  | (t, fs) :: rest, t2 => if t = t2 then fs else getFields rest t2

/-- Store the field dict of one type back into the table. -/
def setFields {α : Type} : Registry α → ASTNodeType → List (String × α) → Registry α
  | [], t2, fs2 => [(t2, fs2)]
  | (t, fs) :: rest, t2, fs2 =>
      if t = t2 then (t2, fs2) :: rest else (t, fs) :: setFields rest t2 fs2

/-- The `RuntimeError` of `register`: a duplicate computed field. -/
inductive RegError where
  | duplicateField (name : String) (t : ASTNodeType)
deriving DecidableEq, Repr

/-- `_ComputedFieldsRegistry.register`: for each listed node type, raise on
a duplicate name outside an interactive shell, otherwise install the
computator.  The returned table reflects the installations made before a
raise, which leaves the registry mutated. -/
def register {α : Type} (interactive : Bool) (reg : Registry α) (f : α)
    (name : String) : List ASTNodeType → Registry α × Option RegError
  | [] => (reg, none)
  | t :: rest =>
      let fields := getFields reg t
      if (lookupField fields name).isSome && !interactive then
        (reg, some (.duplicateField name t))
      else
        register interactive (setFields reg t (setField fields name f)) f name rest

/-! ## Fake nodes (`AST.create_fake_node`)

`AST._fake_nodes_qty_per_graph` is a class-level `defaultdict(lambda: 0)`
keyed by the graph object; graph objects are modelled by `Nat` keys and the
dict by a function with default `0`.  A call sequence interleaving several
graphs is a `List Nat` of keys. -/

/-- `create_fake_node` on graph `g`: read the per-graph counter, bump it,
and return `-(qty + 1)`. -/
def createFakeNodeOn (counters : Nat → Nat) (g : Nat) : Int × (Nat → Nat) :=
  let fakeNodesQty := counters g
  (-((fakeNodesQty : Int) + 1),
   fun g2 => if g2 = g then fakeNodesQty + 1 else counters g2)

/-- Run a sequence of `create_fake_node` calls, each on the named graph,
collecting (graph, returned id) pairs. -/
def runFakeNodeCalls (counters : Nat → Nat) :
    List Nat → List (Nat × Int) × (Nat → Nat)
  | [] => ([], counters)
  | g :: rest =>
      match createFakeNodeOn counters g with
      | (fid, counters2) =>
          match runFakeNodeCalls counters2 rest with
          | (out, final) => ((g, fid) :: out, final)

/-- The ids returned on graph `g` by a call sequence started on fresh
counters, in call order. -/
def fakeIdsOn (g : Nat) (calls : List Nat) : List Int :=
  (runFakeNodeCalls (fun _ => 0) calls).1.filterMap
    (fun p => if p.1 = g then some p.2 else none)

/-! ## Subtree partitioning (`AST.get_subtrees`)

The graphs the engine traverses are rooted trees (one build produces a
tree; ids and types are node attributes).  They are modelled by the mutual
`RTree`/`RForest` below, and the networkx `dfs_labeled_edges(tree, root)` generator by
its specified event stream on a tree: a `forward` event for each node when
first discovered (the root first, with a self edge) and a `reverse` event
when its whole subtree has been finished, children in adjacency order. -/

inductive DfsEventKind where
  | forward
  | reverse
deriving DecidableEq, Repr

mutual

/-- A rooted tree with integer node ids and node types. -/
inductive RTree where
  | node (nid : Int) (nt : ASTNodeType) (children : RForest)

/-- A list of sibling subtrees. -/
inductive RForest where
  | nil
  | cons (t : RTree) (rest : RForest)

end

def RTree.rootId : RTree → Int
  | .node i _ _ => i

mutual

/-- Preorder id sequence of a tree (the discovery order of DFS). -/
def RTree.preorderIds : RTree → List Int
  | .node i _ cs => i :: RForest.preorderIdsF cs

def RForest.preorderIdsF : RForest → List Int
  | .nil => []
  | .cons t rest => t.preorderIds ++ RForest.preorderIdsF rest

end

mutual

/-- The `dfs_labeled_edges` event stream restricted to what `get_subtrees`
reads: the destination node id, its `node_type` attribute, and whether the
edge label is `forward` or `reverse` (`nontree` labels do not occur on a
tree). -/
def RTree.dfsLabeledEvents : RTree → List (Int × ASTNodeType × DfsEventKind)
  | .node i nt cs =>
      (i, nt, .forward) :: (RForest.dfsLabeledEventsF cs ++ [(i, nt, .reverse)])

def RForest.dfsLabeledEventsF : RForest → List (Int × ASTNodeType × DfsEventKind)
  | .nil => []
  | .cons t rest => t.dfsLabeledEvents ++ RForest.dfsLabeledEventsF rest

end

/-- The loop state of `get_subtrees`: `is_inside_subtree`,
`current_subtree_root` (`-1` when none; all real node indexes are
positive), and the `subtree` index buffer. -/
structure SubtreesState where
  isInsideSubtree : Bool
  currentSubtreeRoot : Int
  subtreeBuf : List Int
deriving DecidableEq, Repr

/-- One iteration of the `get_subtrees` loop.  The second component holds
the subtrees yielded by this iteration, each as (root id, collected node
ids) — the arguments `AST(self.tree.subgraph(subtree), current_subtree_root)`
is built from. -/
def getSubtreesStep (rootTypes : List ASTNodeType) (st : SubtreesState) :
    Int × ASTNodeType × DfsEventKind → SubtreesState × List (Int × List Int)
  | (d, nt, .forward) =>
      if st.isInsideSubtree then
        ({ st with subtreeBuf := st.subtreeBuf ++ [d] }, [])
      else if nt ∈ rootTypes then
        (⟨true, d, st.subtreeBuf ++ [d]⟩, [])
      else (st, [])
  | (d, _, .reverse) =>
      if d = st.currentSubtreeRoot then
        (⟨false, -1, []⟩, [(st.currentSubtreeRoot, st.subtreeBuf)])
      else (st, [])

/-- The `get_subtrees` loop over an event stream. -/
def runGetSubtrees (rootTypes : List ASTNodeType) (st : SubtreesState) :
    List (Int × ASTNodeType × DfsEventKind) →
    SubtreesState × List (Int × List Int)
  | [] => (st, [])
  | e :: rest =>
      ((runGetSubtrees rootTypes (getSubtreesStep rootTypes st e).1 rest).1,
       (getSubtreesStep rootTypes st e).2 ++
         (runGetSubtrees rootTypes (getSubtreesStep rootTypes st e).1 rest).2)

/-- `AST.get_subtrees(*root_type)`: run the loop over the DFS events from
the root, from the initial state. -/
def getSubtrees (rootTypes : List ASTNodeType) (t : RTree) :
    List (Int × List Int) :=
  (runGetSubtrees rootTypes ⟨false, -1, []⟩ t.dfsLabeledEvents).2

mutual

/-- The outermost subtrees whose root type is in the given set: a matching
node yields itself (absorbing any nested matches); a non-matching node
yields the outermost matches of its children, in traversal order. -/
def RTree.outermostSubtrees (rootTypes : List ASTNodeType) : RTree → List RTree
  | .node i nt cs =>
      if nt ∈ rootTypes then [.node i nt cs]
      else RForest.outermostSubtreesF rootTypes cs

def RForest.outermostSubtreesF (rootTypes : List ASTNodeType) :
    RForest → List RTree
  | .nil => []
  | .cons t rest =>
      t.outermostSubtrees rootTypes ++ RForest.outermostSubtreesF rootTypes rest

end

/-! ## Predicates and derived descriptions used by the statements -/

mutual

/-- Whether a raw javalang node occurs in a graph-attribute value, at any
nesting depth of lists. -/
def GAttr.hasJNode : GAttr → Bool
  | .jnode _ => true
  | .glist l => GAttrList.hasJNodeL l
  | _ => false

def GAttrList.hasJNodeL : GAttrList → Bool
  | .nil => false
  | .cons v rest => v.hasJNode || GAttrList.hasJNodeL rest

end

/-- Whether a graph-attribute value has a shape the resolver does not
classify: not a javalang node, a list, an integer, a string, or the absent
marker. -/
def GAttr.unclassifiable : GAttr → Bool
  | .jnode _ => false
  | .glist _ => false
  | .gint _ => false
  | .gstr _ => false
  | .gnull => false
  | _ => true

/-- Whether some element of a list value, at any nesting depth, is
unclassifiable. -/
def GAttrList.containsUnclassifiable : GAttrList → Bool
  | .nil => false
  | .cons v rest =>
      v.unclassifiable ||
      (match v with
       | .glist l => GAttrList.containsUnclassifiable l
       | _ => false) ||
      GAttrList.containsUnclassifiable rest

mutual

/-- Whether a raw javalang node with no entry in the identity map occurs
in a value, at any nesting depth of lists. -/
def GAttr.hasUnmappedNode (m : List (Nat × Int)) : GAttr → Bool
  | .jnode n => (lookupId m n.pyid).isNone
  | .glist l => GAttrList.hasUnmappedNodeL m l
  | _ => false

def GAttrList.hasUnmappedNodeL (m : List (Nat × Int)) : GAttrList → Bool
  | .nil => false
  | .cons v rest =>
      GAttr.hasUnmappedNode m v || GAttrList.hasUnmappedNodeL m rest

end

/-- The id sequence `[1, …, n]`. -/
def canonicalIds (n : Nat) : List Int :=
  (List.range n).map (fun k : Nat => ((k + 1 : Nat) : Int))

/-- The node ids of a builder state are exactly `[1, …, n]` in insertion
order. -/
def idsCanonical (st : BuildState) : Prop :=
  st.nodes.map Prod.fst = canonicalIds st.nodes.length

/-- The string members of a collection, in iteration order. -/
def strMembers : List JSetItem → List String :=
  List.filterMap (fun it => match it with | .jstr s => some s | _ => none)

/-- Allowed collection members: strings and the absent marker. -/
def JSetItem.allowed : JSetItem → Bool
  | .jother _ => false
  | _ => true

/-- The String leaf nodes created for the given string members when the
graph already holds `base` nodes: ids `base + 1, base + 2, …` in member
order. -/
def stringLeafNodes (base : Nat) :
    List String → List (Int × List (String × GAttr))
  | [] => []
  | s :: rest =>
      (((base + 1 : Nat) : Int), stringNodeAttrs s) ::
        stringLeafNodes (base + 1) rest

/-- The edges linking a collection node to those leaves. -/
def stringLeafEdges (collIdx : Int) (base : Nat) : List String → List (Int × Int)
  | [] => []
  | _ :: rest =>
      (collIdx, ((base + 1 : Nat) : Int)) :: stringLeafEdges collIdx (base + 1) rest

/-! ## Theorems: fake nodes (C8) -/

theorem runFakeNodeCalls_filterMap (g : Nat) :
    ∀ (calls : List Nat) (counters : Nat → Nat),
      (runFakeNodeCalls counters calls).1.filterMap
        (fun p => if p.1 = g then some p.2 else none) =
      (List.range (calls.count g)).map
        (fun i : Nat => -((counters g : Int) + (i : Int) + 1))
  | [], counters => by simp [runFakeNodeCalls]
  | c :: rest, counters => by
      have ih := runFakeNodeCalls_filterMap g rest
        (fun g2 => if g2 = c then counters c + 1 else counters g2)
      simp only [runFakeNodeCalls, createFakeNodeOn]
      by_cases hc : c = g
      · subst hc
        have hcnt : (if c = c then counters c + 1 else counters c) =
            counters c + 1 := if_pos rfl
        rw [hcnt] at ih
        have hstep : List.filterMap
            (fun p : Nat × Int => if p.1 = c then some p.2 else none)
            ((c, -((counters c : Int) + 1)) ::
              (runFakeNodeCalls
                (fun g2 => if g2 = c then counters c + 1 else counters g2)
                rest).1) =
            -((counters c : Int) + 1) ::
              List.filterMap
                (fun p : Nat × Int => if p.1 = c then some p.2 else none)
                (runFakeNodeCalls
                  (fun g2 => if g2 = c then counters c + 1 else counters g2)
                  rest).1 := by
          rw [List.filterMap_cons]
          simp
        rw [hstep, ih, List.count_cons_self,
          List.range_succ_eq_map, List.map_cons, List.map_map]
        refine List.cons_eq_cons.mpr ⟨?_, ?_⟩
        · push_cast; ring
        · apply List.map_congr_left
          intro i _
          simp only [Function.comp_apply, Nat.succ_eq_add_one]
          push_cast; ring
      · have hcount : (c :: rest).count g = rest.count g := by
          simp [List.count_cons, hc]
        have hcnt : (if g = c then counters c + 1 else counters g) =
            counters g := if_neg (Ne.symm hc)
        rw [hcnt] at ih
        have hstep : List.filterMap
            (fun p : Nat × Int => if p.1 = g then some p.2 else none)
            ((c, -((counters c : Int) + 1)) ::
              (runFakeNodeCalls
                (fun g2 => if g2 = c then counters c + 1 else counters g2)
                rest).1) =
            List.filterMap
              (fun p : Nat × Int => if p.1 = g then some p.2 else none)
              (runFakeNodeCalls
                (fun g2 => if g2 = c then counters c + 1 else counters g2)
                rest).1 := by
          rw [List.filterMap_cons]
          simp [hc]
        rw [hstep, ih, hcount]

/-- C8: for every graph instance, the k-th `create_fake_node` call on that
graph returns node id `-k`: for any interleaved call sequence on fresh
per-graph counters, the ids returned on graph `g` are exactly
`[-1, …, -k]` in call order (`k` = number of calls on `g`); in particular
they are negative, pairwise distinct, and distinct from every positive
real id, and calls on other graphs do not disturb them. -/
theorem claim_c8 (calls : List Nat) (g : Nat) :
    fakeIdsOn g calls =
      (List.range (calls.count g)).map (fun i : Nat => -((i : Int) + 1)) ∧
    (∀ k, k < calls.count g →
      (fakeIdsOn g calls)[k]? = some (-((k : Int) + 1))) ∧
    (∀ x ∈ fakeIdsOn g calls, x < 0) ∧
    (fakeIdsOn g calls).Nodup ∧
    (∀ x ∈ fakeIdsOn g calls, ∀ p : Int, 0 < p → x ≠ p) := by
  have hmain : fakeIdsOn g calls =
      (List.range (calls.count g)).map (fun i : Nat => -((i : Int) + 1)) := by
    have h := runFakeNodeCalls_filterMap g calls (fun _ => 0)
    rw [fakeIdsOn, h]
    apply List.map_congr_left
    intro i _
    push_cast
    ring
  refine ⟨hmain, ?_, ?_, ?_, ?_⟩
  · intro k hk
    rw [hmain, List.getElem?_map, List.getElem?_range hk]
    rfl
  · intro x hx
    rw [hmain] at hx
    obtain ⟨i, _, rfl⟩ := List.mem_map.mp hx
    omega
  · rw [hmain]
    refine List.Nodup.map ?_ (List.nodup_range _)
    intro a b hab
    simp only [neg_inj, add_left_inj] at hab
    exact_mod_cast hab
  · intro x hx p hp
    rw [hmain] at hx
    obtain ⟨i, _, rfl⟩ := List.mem_map.mp hx
    omega

theorem claim_c8_witness :
    (1 < ([0, 1, 0].count 0) ∧
      (fakeIdsOn 0 [0, 1, 0])[1]? = some (-((1 : Int) + 1))) ∧
    fakeIdsOn 0 [0, 1, 0] = [-1, -2] :=
  ⟨⟨by decide, (claim_c8 [0, 1, 0] 0).2.1 1 (by decide)⟩,
    ((claim_c8 [0, 1, 0] 0).1).trans (by decide)⟩

/-! ## Theorems: registry (C9, C10) -/

theorem getFields_setFields_self {α : Type} (t : ASTNodeType)
    (fs : List (String × α)) :
    ∀ reg : Registry α, getFields (setFields reg t fs) t = fs := by
  intro reg
  induction reg with
  | nil => simp [setFields, getFields]
  | cons hd rest ih =>
      by_cases h : hd.1 = t
      · simp [setFields, h, getFields]
      · simp [setFields, h, getFields, ih]

theorem getFields_setFields_ne {α : Type} (t t2 : ASTNodeType)
    (fs : List (String × α)) (h : t ≠ t2) :
    ∀ reg : Registry α, getFields (setFields reg t fs) t2 = getFields reg t2 := by
  intro reg
  induction reg with
  | nil => simp [setFields, getFields, h]
  | cons hd rest ih =>
      by_cases h1 : hd.1 = t
      · simp [setFields, h1, getFields, h]
      · simp [setFields, h1, getFields, ih]

theorem lookupField_setField_self {α : Type} (k : String) (v : α) :
    ∀ fs : List (String × α), lookupField (setField fs k v) k = some v := by
  intro fs
  induction fs with
  | nil => simp [setField, lookupField]
  | cons hd rest ih =>
      by_cases h : hd.1 = k
      · simp [setField, h, lookupField]
      · simp [setField, h, lookupField, ih]

theorem register_true_step {α : Type} (reg : Registry α) (f : α)
    (name : String) (t : ASTNodeType) (rest : List ASTNodeType) :
    register true reg f name (t :: rest) =
      register true (setFields reg t (setField (getFields reg t) name f))
        f name rest := by
  simp [register]

theorem register_false_step_go {α : Type} (reg : Registry α) (f : α)
    (name : String) (t : ASTNodeType) (rest : List ASTNodeType)
    (h : (lookupField (getFields reg t) name).isSome = false) :
    register false reg f name (t :: rest) =
      register false (setFields reg t (setField (getFields reg t) name f))
        f name rest := by
  simp [register, h]

theorem register_false_step_fail {α : Type} (reg : Registry α) (f : α)
    (name : String) (t : ASTNodeType) (rest : List ASTNodeType)
    (h : (lookupField (getFields reg t) name).isSome = true) :
    register false reg f name (t :: rest) =
      (reg, some (.duplicateField name t)) := by
  simp [register, h]

theorem register_true_never_fails {α : Type} (f : α) (name : String) :
    ∀ (types : List ASTNodeType) (reg : Registry α),
      (register true reg f name types).2 = none := by
  intro types
  induction types with
  | nil => intro reg; simp [register]
  | cons t rest ih => intro reg; rw [register_true_step]; exact ih _

theorem register_true_keeps {α : Type} (f : α) (name : String)
    (t : ASTNodeType) :
    ∀ (types : List ASTNodeType) (reg : Registry α),
      lookupField (getFields reg t) name = some f →
      lookupField (getFields (register true reg f name types).1 t) name = some f := by
  intro types
  induction types with
  | nil => intro reg h; simpa [register] using h
  | cons t2 rest ih =>
      intro reg h
      rw [register_true_step]
      apply ih
      by_cases h2 : t2 = t
      · subst h2
        rw [getFields_setFields_self, lookupField_setField_self]
      · rw [getFields_setFields_ne _ _ _ h2]
        exact h

theorem register_true_installs {α : Type} (f : α) (name : String) :
    ∀ (types : List ASTNodeType) (reg : Registry α),
      ∀ t ∈ types,
        lookupField (getFields (register true reg f name types).1 t) name = some f := by
  intro types
  induction types with
  | nil => intro reg t ht; simp at ht
  | cons t2 rest ih =>
      intro reg t ht
      rw [register_true_step]
      rcases List.mem_cons.mp ht with h | h
      · subst h
        apply register_true_keeps
        rw [getFields_setFields_self, lookupField_setField_self]
      · exact ih _ t h

theorem register_false_dup_fails {α : Type} (f : α) (name : String) :
    ∀ (types : List ASTNodeType) (reg : Registry α),
      (∃ t ∈ types, (lookupField (getFields reg t) name).isSome = true) →
      ∃ t2, (register false reg f name types).2 =
        some (.duplicateField name t2) := by
  intro types
  induction types with
  | nil => intro reg h; simp at h
  | cons t rest ih =>
      intro reg h
      by_cases hd : (lookupField (getFields reg t) name).isSome = true
      · exact ⟨t, by rw [register_false_step_fail _ _ _ _ _ hd]⟩
      · have hd2 : (lookupField (getFields reg t) name).isSome = false := by
          simpa using hd
        obtain ⟨t1, ht1, hsome⟩ := h
        rcases List.mem_cons.mp ht1 with h1 | h1
        · subst h1; exact absurd hsome hd
        · have hne : t ≠ t1 := by
            intro he; subst he; exact hd hsome
          rw [register_false_step_go _ _ _ _ _ hd2]
          apply ih
          exact ⟨t1, h1, by rw [getFields_setFields_ne _ _ _ hne]; exact hsome⟩

/-- C9: registering an already-registered field name for one of the given
node types fails with a `DuplicateFieldError`-kind condition outside an
interactive shell, while inside an interactive shell the same call
succeeds and overwrites: the computator stored under the name is the new
one for every listed type. -/
theorem claim_c9 {α : Type} (reg : Registry α) (f : α) (name : String)
    (types : List ASTNodeType)
    (hdup : ∃ t ∈ types, (lookupField (getFields reg t) name).isSome = true) :
    (∃ t2, (register false reg f name types).2 =
      some (.duplicateField name t2)) ∧
    (register true reg f name types).2 = none ∧
    (∀ t ∈ types,
      lookupField (getFields (register true reg f name types).1 t) name = some f) :=
  ⟨register_false_dup_fails f name types reg hdup,
   register_true_never_fails f name types reg,
   register_true_installs f name types reg⟩

theorem claim_c9_witness :
    (register true ([(ASTNodeType.STRING, [("f", 7)])] : Registry Nat) 9 "f"
        [ASTNodeType.COLLECTION, ASTNodeType.STRING]).2 = none ∧
    lookupField
      (getFields
        (register true ([(ASTNodeType.STRING, [("f", 7)])] : Registry Nat) 9 "f"
          [ASTNodeType.COLLECTION, ASTNodeType.STRING]).1
        ASTNodeType.STRING) "f" = some 9 :=
  ⟨(claim_c9 _ 9 "f" _ (by decide)).2.1,
   (claim_c9 _ 9 "f" _ (by decide)).2.2 ASTNodeType.STRING (by decide)⟩

theorem register_false_midway_aux {α : Type} (f : α) (name : String) :
    ∀ (ta : List ASTNodeType) (reg : Registry α) (tb : ASTNodeType)
      (ts : List ASTNodeType),
      (lookupField (getFields reg tb) name).isSome = true →
      (∀ t ∈ ta, lookupField (getFields reg t) name = none) →
      ta.Nodup →
      ∃ reg2,
        register false reg f name (ta ++ tb :: ts) =
          (reg2, some (.duplicateField name tb)) ∧
        (∀ t ∈ ta, lookupField (getFields reg2 t) name = some f) ∧
        (∀ t2, t2 ∉ ta → getFields reg2 t2 = getFields reg t2) := by
  intro ta
  induction ta with
  | nil =>
      intro reg tb ts hb _ _
      refine ⟨reg, ?_, by simp, by simp⟩
      simp [register, hb]
  | cons t rest ih =>
      intro reg tb ts hb hnone hnd
      have hnt : lookupField (getFields reg t) name = none :=
        hnone t (List.mem_cons_self t rest)
      have hcond : (lookupField (getFields reg t) name).isSome = false := by
        rw [hnt]; rfl
      have htb : t ≠ tb := by
        intro he; subst he; rw [hnt] at hb; simp at hb
      have hrest : ∀ t2 ∈ rest,
          lookupField (getFields (setFields reg t
            (setField (getFields reg t) name f)) t2) name = none := by
        intro t2 h2
        have hne : t ≠ t2 := by
          intro he; subst he
          exact (List.nodup_cons.mp hnd).1 h2
        rw [getFields_setFields_ne _ _ _ hne]
        exact hnone t2 (List.mem_cons_of_mem t h2)
      have hb2 : (lookupField (getFields (setFields reg t
          (setField (getFields reg t) name f)) tb) name).isSome = true := by
        rw [getFields_setFields_ne _ _ _ htb]
        exact hb
      obtain ⟨reg2, heq, hkeep, hout⟩ :=
        ih (setFields reg t (setField (getFields reg t) name f)) tb ts hb2 hrest
          (List.nodup_cons.mp hnd).2
      refine ⟨reg2, ?_, ?_, ?_⟩
      · rw [List.cons_append, register_false_step_go _ _ _ _ _ hcond]
        exact heq
      · intro t2 h2
        rcases List.mem_cons.mp h2 with h3 | h3
        · subst h3
          rw [hout t2 (List.nodup_cons.mp hnd).1,
            getFields_setFields_self, lookupField_setField_self]
        · exact hkeep t2 h3
      · intro t2 h2
        have hne : t ≠ t2 := fun he => h2 (he ▸ List.mem_cons_self t rest)
        rw [hout t2 (fun h3 => h2 (List.mem_cons_of_mem t h3)),
          getFields_setFields_ne _ _ _ hne]

/-- C10: registration is not atomic.  When `register` is called with a
field name and several node types, the name being taken for a later-listed
type (outside an interactive context), the call raises the duplicate-field
error, yet the installations already performed for the earlier-listed
types persist in the registry. -/
theorem claim_c10 {α : Type} (reg : Registry α) (f : α) (name : String)
    (ta : List ASTNodeType) (tb : ASTNodeType) (ts : List ASTNodeType)
    (hb : (lookupField (getFields reg tb) name).isSome = true)
    (hnone : ∀ t ∈ ta, lookupField (getFields reg t) name = none)
    (hnd : ta.Nodup) :
    ∃ reg2,
      register false reg f name (ta ++ tb :: ts) =
        (reg2, some (.duplicateField name tb)) ∧
      ∀ t ∈ ta, lookupField (getFields reg2 t) name = some f := by
  obtain ⟨reg2, heq, hkeep, _⟩ :=
    register_false_midway_aux f name ta reg tb ts hb hnone hnd
  exact ⟨reg2, heq, hkeep⟩

/-! ## Theorems: collection building (C6) -/

theorem addCollectionItems_allowed_ok (collIdx : Int) :
    ∀ (items : List JSetItem) (st : BuildState),
      (∀ it ∈ items, it.allowed = true) →
      addCollectionItems st collIdx items =
        .ok ⟨st.nodes ++ stringLeafNodes st.nodes.length (strMembers items),
             st.edges ++
               stringLeafEdges collIdx st.nodes.length (strMembers items),
             st.idMap⟩
  | [], st, _ => by
      simp [addCollectionItems, strMembers, stringLeafNodes, stringLeafEdges]
  | .jstr s :: rest, st, h => by
      have hrest : ∀ it ∈ rest, it.allowed = true := fun it hi =>
        h it (List.mem_cons_of_mem _ hi)
      simp only [addCollectionItems, addJavalangStringNode, BuildState.addNode]
      rw [addCollectionItems_allowed_ok collIdx rest _ hrest]
      simp [strMembers, stringLeafNodes, stringLeafEdges, List.append_assoc]
  | .jnone :: rest, st, h => by
      have hrest : ∀ it ∈ rest, it.allowed = true := fun it hi =>
        h it (List.mem_cons_of_mem _ hi)
      simp only [addCollectionItems]
      rw [addCollectionItems_allowed_ok collIdx rest st hrest]
      simp [strMembers]
  | .jother tyName :: rest, st, h => by
      have hbad := h _ (List.mem_cons_self _ _)
      simp [JSetItem.allowed] at hbad

theorem addCollectionItems_bad (collIdx : Int) :
    ∀ (good : List JSetItem) (tyName : String) (rest2 : List JSetItem)
      (st : BuildState),
      (∀ it ∈ good, it.allowed = true) →
      addCollectionItems st collIdx (good ++ .jother tyName :: rest2) =
        .error (.malformedCollection tyName)
  | [], tyName, rest2, st, _ => by simp [addCollectionItems]
  | .jstr s :: good, tyName, rest2, st, h => by
      simp only [List.cons_append, addCollectionItems, addJavalangStringNode,
        BuildState.addNode]
      exact addCollectionItems_bad collIdx good tyName rest2 _
        (fun it hi => h it (List.mem_cons_of_mem _ hi))
  | .jnone :: good, tyName, rest2, st, h => by
      simp only [List.cons_append, addCollectionItems]
      exact addCollectionItems_bad collIdx good tyName rest2 st
        (fun it hi => h it (List.mem_cons_of_mem _ hi))
  | .jother ty0 :: good, tyName, rest2, st, h => by
      have hbad := h _ (List.mem_cons_self _ _)
      simp [JSetItem.allowed] at hbad

/-- C6: building a collection node inserts the collection node under index
`len(graph) + 1` and then, for each member in iteration order: a string
member becomes a String leaf node linked as a child of the collection
node; an absent-marker member is skipped; a member of any other type
aborts the build with a `MalformedCollectionError`-kind failure carrying
the offending runtime type. -/
theorem claim_c6 (st : BuildState) (items : List JSetItem) :
    ((∀ it ∈ items, it.allowed = true) →
      addJavalangCollectionNode st items =
        .ok (⟨st.nodes ++
                (((st.nodes.length + 1 : Nat) : Int), collectionNodeAttrs) ::
                  stringLeafNodes (st.nodes.length + 1) (strMembers items),
              st.edges ++
                stringLeafEdges ((st.nodes.length + 1 : Nat) : Int)
                  (st.nodes.length + 1) (strMembers items),
              st.idMap⟩, ((st.nodes.length + 1 : Nat) : Int))) ∧
    (∀ (good : List JSetItem) (tyName : String) (rest : List JSetItem),
      (∀ it ∈ good, it.allowed = true) →
      items = good ++ .jother tyName :: rest →
      addJavalangCollectionNode st items =
        .error (.malformedCollection tyName)) := by
  constructor
  · intro h
    simp only [addJavalangCollectionNode, BuildState.addNode]
    rw [addCollectionItems_allowed_ok _ items _ h]
    simp [List.append_assoc]
  · intro good tyName rest hgood heq
    subst heq
    simp only [addJavalangCollectionNode, BuildState.addNode]
    rw [addCollectionItems_bad _ good tyName rest _ hgood]

theorem claim_c6_witness :
    addJavalangCollectionNode ⟨[], [], []⟩ [.jstr "a", .jnone] =
      .ok (⟨[((1 : Int), collectionNodeAttrs), ((2 : Int), stringNodeAttrs "a")],
            [((1 : Int), (2 : Int))], []⟩, 1) ∧
    addJavalangCollectionNode ⟨[], [], []⟩ [.jother "int"] =
      .error (.malformedCollection "int") :=
  ⟨((claim_c6 ⟨[], [], []⟩ [.jstr "a", .jnone]).1 (by decide)).trans rfl,
   (claim_c6 ⟨[], [], []⟩ [.jother "int"]).2 [] "int" [] (by decide) rfl⟩

/-! ## Theorems: attribute normalization (C7) -/

theorem getAttr_setAttr_self :
    ∀ (attrs : List (String × GAttr)) (k : String) (v : GAttr),
      getAttr (setAttr attrs k v) k = some v
  | [], k, v => by simp [setAttr, getAttr]
  | (k1, v1) :: rest, k, v => by
      by_cases h : k1 = k
      · simp [setAttr, h, getAttr]
      · simp [setAttr, h, getAttr, getAttr_setAttr_self rest k v]

theorem getAttr_setAttr_ne :
    ∀ (attrs : List (String × GAttr)) (k k2 : String) (v : GAttr), k ≠ k2 →
      getAttr (setAttr attrs k v) k2 = getAttr attrs k2
  | [], k, k2, v, h => by simp [setAttr, getAttr, h]
  | (k1, v1) :: rest, k, k2, v, h => by
      by_cases h1 : k1 = k
      · subst h1
        simp [setAttr, getAttr, h]
      · by_cases h2 : k1 = k2
        · subst h2
          simp [setAttr, h1, getAttr]
        · simp [setAttr, h1, getAttr, h2, getAttr_setAttr_ne rest k k2 v h]

theorem postProcess_methodDecl_body (attrs : List (String × GAttr))
    (h : getAttr attrs "body" = some .gnull) :
    getAttr (postProcessJavalangAttributes .METHOD_DECLARATION attrs) "body" =
      some (.glist .nil) := by
  simp [postProcessJavalangAttributes, h, getAttr_setAttr_self]

theorem postProcess_lambda_body (attrs : List (String × GAttr)) (n : JNode)
    (h : getAttr attrs "body" = some (.jnode n)) :
    getAttr (postProcessJavalangAttributes .LAMBDA_EXPRESSION attrs) "body" =
      some (.glist (.cons (.jnode n) .nil)) := by
  simp [postProcessJavalangAttributes, h, getAttr_setAttr_self]

theorem postProcess_qualifier (nt : ASTNodeType)
    (attrs : List (String × GAttr))
    (hnt : nt = .METHOD_INVOCATION ∨ nt = .MEMBER_REFERENCE)
    (h : getAttr attrs "qualifier" = some (.gstr "")) :
    getAttr (postProcessJavalangAttributes nt attrs) "qualifier" =
      some .gnull := by
  rcases hnt with h1 | h1 <;> subst h1 <;>
    simp [postProcessJavalangAttributes, h, getAttr_setAttr_self]

/-- C7: for every standard node built, the stored attribute dictionary of
the inserted node satisfies the three normalizations: a method declaration
whose body attribute is the absent marker gets an empty-sequence body; a
lambda whose body is a single inlined node gets a one-element-sequence
body; and a method invocation or member reference whose qualifier is the
empty string gets an explicit absent qualifier. -/
theorem claim_c7 (st : BuildState) (nt : ASTNodeType) (attrs : JAttrs)
    (line : Option Int) (st2 : BuildState) (idx : Int)
    (h : addJavalangStandardNode st nt attrs line = (st2, idx)) :
    ∃ stored, st2.nodes = st.nodes ++ [(idx, stored)] ∧
      (nt = .METHOD_DECLARATION →
        getAttr attrs.toGraphAttrs "body" = some .gnull →
        getAttr stored "body" = some (.glist .nil)) ∧
      (∀ n : JNode, nt = .LAMBDA_EXPRESSION →
        getAttr attrs.toGraphAttrs "body" = some (.jnode n) →
        getAttr stored "body" = some (.glist (.cons (.jnode n) .nil))) ∧
      ((nt = .METHOD_INVOCATION ∨ nt = .MEMBER_REFERENCE) →
        getAttr attrs.toGraphAttrs "qualifier" = some (.gstr "") →
        getAttr stored "qualifier" = some .gnull) := by
  simp only [addJavalangStandardNode, BuildState.addNode] at h
  cases h
  refine ⟨postProcessJavalangAttributes nt
    (setAttr (setAttr attrs.toGraphAttrs "node_type" (.ntype nt)) "line"
      (lineAttr line)), rfl, ?_, ?_, ?_⟩
  · intro hnt hbody
    subst hnt
    apply postProcess_methodDecl_body
    rw [getAttr_setAttr_ne _ _ _ _ (by decide),
      getAttr_setAttr_ne _ _ _ _ (by decide)]
    exact hbody
  · intro n hnt hbody
    subst hnt
    apply postProcess_lambda_body
    rw [getAttr_setAttr_ne _ _ _ _ (by decide),
      getAttr_setAttr_ne _ _ _ _ (by decide)]
    exact hbody
  · intro hnt hqual
    apply postProcess_qualifier _ _ hnt
    rw [getAttr_setAttr_ne _ _ _ _ (by decide),
      getAttr_setAttr_ne _ _ _ _ (by decide)]
    exact hqual

theorem claim_c7_witness :
    addJavalangStandardNode ⟨[], [], []⟩ .METHOD_DECLARATION
        (.cons "body" .jnull .nil) none =
      (⟨[((1 : Int),
          [("body", GAttr.glist .nil),
           ("node_type", GAttr.ntype .METHOD_DECLARATION),
           ("line", GAttr.gnull)])], [], []⟩, 1) ∧
    getAttr
      [("body", GAttr.glist .nil),
       ("node_type", GAttr.ntype .METHOD_DECLARATION),
       ("line", GAttr.gnull)] "body" = some (.glist .nil) := by
  refine ⟨rfl, ?_⟩
  obtain ⟨stored, h1, h2, _, _⟩ :=
    claim_c7 ⟨[], [], []⟩ .METHOD_DECLARATION (.cons "body" .jnull .nil) none
      ⟨[((1 : Int),
         [("body", GAttr.glist .nil),
          ("node_type", GAttr.ntype .METHOD_DECLARATION),
          ("line", GAttr.gnull)])], [], []⟩ 1 rfl
  have hs : [((1 : Int),
      [("body", GAttr.glist .nil),
       ("node_type", GAttr.ntype .METHOD_DECLARATION),
       ("line", GAttr.gnull)])] =
      [] ++ [((1 : Int), stored)] := h1
  simp only [List.nil_append, List.cons.injEq, Prod.mk.injEq, and_true,
    true_and] at hs
  rw [hs]
  exact h2 rfl rfl

/-! ## Theorems: resolver failure semantics (C4, C5) -/

theorem createReference_unmapped (m : List (Nat × Int)) (n : JNode)
    (h : lookupId m n.pyid = none) :
    createReferenceToNode m n = .error (.brokenReference n.pyid) := by
  simp [createReferenceToNode, h]

theorem replaceList_unmapped_fails (m : List (Nat × Int)) :
    ∀ (l : GAttrList), GAttrList.hasUnmappedNodeL m l = true →
      ∀ out, replaceJavalangNodesInList m l = .ok out → False
  | .nil, h, out, hok => by
      simp [GAttrList.hasUnmappedNodeL] at h
  | .cons (.jnode n) rest, h, out, hok => by
      simp only [GAttrList.hasUnmappedNodeL, GAttr.hasUnmappedNode,
        Bool.or_eq_true] at h
      simp only [replaceJavalangNodesInList] at hok
      split at hok
      · rename_i r heq
        have hrest : GAttrList.hasUnmappedNodeL m rest = true := by
          rcases h with h | h
          · rw [Option.isNone_iff_eq_none] at h
            rw [createReference_unmapped m n h] at heq
            exact Except.noConfusion heq
          · exact h
        split at hok
        · exact replaceList_unmapped_fails m rest hrest _ (by assumption)
        · exact Except.noConfusion hok
      · exact Except.noConfusion hok
  | .cons (.glist l1) rest, h, out, hok => by
      simp only [GAttrList.hasUnmappedNodeL, GAttr.hasUnmappedNode,
        Bool.or_eq_true] at h
      simp only [replaceJavalangNodesInList] at hok
      split at hok
      · split at hok
        · rcases h with h | h
          · exact replaceList_unmapped_fails m l1 h _ (by assumption)
          · exact replaceList_unmapped_fails m rest h _ (by assumption)
        · exact Except.noConfusion hok
      · exact Except.noConfusion hok
  | .cons (.gint i) rest, h, out, hok => by
      simp only [GAttrList.hasUnmappedNodeL, GAttr.hasUnmappedNode,
        Bool.or_eq_true, Bool.false_eq_true, false_or] at h
      simp only [replaceJavalangNodesInList] at hok
      split at hok
      · exact replaceList_unmapped_fails m rest h _ (by assumption)
      · exact Except.noConfusion hok
  | .cons (.gstr s) rest, h, out, hok => by
      simp only [GAttrList.hasUnmappedNodeL, GAttr.hasUnmappedNode,
        Bool.or_eq_true, Bool.false_eq_true, false_or] at h
      simp only [replaceJavalangNodesInList] at hok
      split at hok
      · exact replaceList_unmapped_fails m rest h _ (by assumption)
      · exact Except.noConfusion hok
  | .cons .gnull rest, h, out, hok => by
      simp only [GAttrList.hasUnmappedNodeL, GAttr.hasUnmappedNode,
        Bool.or_eq_true, Bool.false_eq_true, false_or] at h
      simp only [replaceJavalangNodesInList] at hok
      split at hok
      · exact replaceList_unmapped_fails m rest h _ (by assumption)
      · exact Except.noConfusion hok
  | .cons (.ref j) rest, h, out, hok => by
      simp only [replaceJavalangNodesInList] at hok
      exact Except.noConfusion hok
  | .cons (.ntype t) rest, h, out, hok => by
      simp only [replaceJavalangNodesInList] at hok
      exact Except.noConfusion hok
  | .cons .gother rest, h, out, hok => by
      simp only [replaceJavalangNodesInList] at hok
      exact Except.noConfusion hok

theorem resolveAttrValue_unmapped_fails (m : List (Nat × Int)) (v : GAttr)
    (h : GAttr.hasUnmappedNode m v = true) :
    ∀ out, resolveAttrValue m v = .ok out → False := by
  intro out hok
  cases v with
  | jnode n =>
      simp only [GAttr.hasUnmappedNode, Option.isNone_iff_eq_none] at h
      rw [resolveAttrValue, createReference_unmapped m n h] at hok
      exact Except.noConfusion hok
  | glist l =>
      simp only [GAttr.hasUnmappedNode] at h
      simp only [resolveAttrValue] at hok
      split at hok
      · exact replaceList_unmapped_fails m l h _ (by assumption)
      · exact Except.noConfusion hok
  | gint i => simp [GAttr.hasUnmappedNode] at h
  | gstr s => simp [GAttr.hasUnmappedNode] at h
  | gnull => simp [GAttr.hasUnmappedNode] at h
  | ref j => simp [GAttr.hasUnmappedNode] at h
  | ntype t => simp [GAttr.hasUnmappedNode] at h
  | gother => simp [GAttr.hasUnmappedNode] at h

theorem resolveAttrs_unmapped_fails (m : List (Nat × Int)) :
    ∀ (attrs : List (String × GAttr)),
      (∃ kv ∈ attrs, GAttr.hasUnmappedNode m kv.2 = true) →
      ∀ out, resolveAttrs m attrs = .ok out → False := by
  intro attrs
  induction attrs with
  | nil => intro h; simp at h
  | cons kv rest ih =>
      intro h out hok
      obtain ⟨kv1, hmem, hun⟩ := h
      rw [resolveAttrs] at hok
      rcases List.mem_cons.mp hmem with h1 | h1
      · subst h1
        split at hok
        · exact resolveAttrValue_unmapped_fails m kv1.2 hun _ (by assumption)
        · exact Except.noConfusion hok
      · split at hok
        · split at hok
          · exact ih ⟨kv1, h1, hun⟩ _ (by assumption)
          · exact Except.noConfusion hok
        · exact Except.noConfusion hok

theorem replaceGraph_unmapped_fails (m : List (Nat × Int)) :
    ∀ (nodes : List (Int × List (String × GAttr))),
      (∃ p ∈ nodes, ∃ kv ∈ p.2, GAttr.hasUnmappedNode m kv.2 = true) →
      ∀ out, replaceJavalangNodesInAttributes m nodes = .ok out → False := by
  intro nodes
  induction nodes with
  | nil => intro h; simp at h
  | cons p rest ih =>
      intro h out hok
      obtain ⟨p1, hmem, hkv⟩ := h
      rw [replaceJavalangNodesInAttributes] at hok
      rcases List.mem_cons.mp hmem with h1 | h1
      · subst h1
        split at hok
        · exact resolveAttrs_unmapped_fails m p1.2 hkv _ (by assumption)
        · exact Except.noConfusion hok
      · split at hok
        · split at hok
          · exact ih ⟨p1, h1, hkv⟩ _ (by assumption)
          · exact Except.noConfusion hok
        · exact Except.noConfusion hok

/-- C4: if an attribute value is, or contains at any nesting depth of
lists, a javalang node that was never recorded in the identity map,
resolution fails rather than silently skipping or masking the value: the
reference-creation step itself fails with the broken-reference error, the
resolution of such a value never succeeds, and the whole resolver pass over
a graph containing such an attribute never succeeds. -/
theorem claim_c4 :
    (∀ (m : List (Nat × Int)) (n : JNode), lookupId m n.pyid = none →
      createReferenceToNode m n = .error (.brokenReference n.pyid)) ∧
    (∀ (m : List (Nat × Int)) (v : GAttr), GAttr.hasUnmappedNode m v = true →
      ∀ out, resolveAttrValue m v ≠ .ok out) ∧
    (∀ (m : List (Nat × Int)) (nodes : List (Int × List (String × GAttr))),
      (∃ p ∈ nodes, ∃ kv ∈ p.2, GAttr.hasUnmappedNode m kv.2 = true) →
      ∀ out, replaceJavalangNodesInAttributes m nodes ≠ .ok out) :=
  ⟨createReference_unmapped,
   fun m v h out hok => resolveAttrValue_unmapped_fails m v h out hok,
   fun m nodes h out hok => replaceGraph_unmapped_fails m nodes h out hok⟩

theorem claim_c4_witness :
    createReferenceToNode [] (JNode.mk 7 (.tag "MemberReference") .nil .nil none) =
      .error (.brokenReference 7) ∧
    resolveAttrValue []
      (.jnode (JNode.mk 7 (.tag "MemberReference") .nil .nil none)) ≠
      .ok (.ref 0) ∧
    replaceJavalangNodesInAttributes []
        [((1 : Int),
          [("x", GAttr.jnode (JNode.mk 7 (.tag "MemberReference") .nil .nil none))])] ≠
      .ok [] :=
  ⟨claim_c4.1 [] (JNode.mk 7 (.tag "MemberReference") .nil .nil none) rfl,
   claim_c4.2.1 []
     (.jnode (JNode.mk 7 (.tag "MemberReference") .nil .nil none)) rfl (.ref 0),
   claim_c4.2.2 []
     [((1 : Int),
       [("x", GAttr.jnode (JNode.mk 7 (.tag "MemberReference") .nil .nil none))])]
     ⟨_, List.mem_cons_self _ _, _, List.mem_cons_self _ _, rfl⟩ []⟩

/-- C5 as written is falsified at a single node whose attribute holds an
unclassifiable value directly (not inside a list): the resolver leaves the
value untouched and completes successfully instead of failing. -/
theorem claim_c5_counterexample :
    replaceJavalangNodesInAttributes [] [((1 : Int), [("x", GAttr.gother)])] =
      .ok [((1 : Int), [("x", GAttr.gother)])] := rfl

theorem replaceList_head_unclassifiable (m : List (Nat × Int)) (v : GAttr)
    (rest : GAttrList) (h : GAttr.unclassifiable v = true) :
    replaceJavalangNodesInList m (.cons v rest) =
      .error .cannotClassifyAttribute := by
  cases v with
  | jnode n => simp [GAttr.unclassifiable] at h
  | glist l => simp [GAttr.unclassifiable] at h
  | gint i => simp [GAttr.unclassifiable] at h
  | gstr s => simp [GAttr.unclassifiable] at h
  | gnull => simp [GAttr.unclassifiable] at h
  | ref j => rfl
  | ntype t => rfl
  | gother => rfl

theorem replaceList_unclassifiable_fails (m : List (Nat × Int)) :
    ∀ (l : GAttrList), GAttrList.containsUnclassifiable l = true →
      ∀ out, replaceJavalangNodesInList m l = .ok out → False
  | .nil, h, out, hok => by
      simp [GAttrList.containsUnclassifiable] at h
  | .cons (.jnode n) rest, h, out, hok => by
      simp only [GAttrList.containsUnclassifiable, GAttr.unclassifiable,
        Bool.or_eq_true, Bool.false_eq_true, false_or] at h
      simp only [replaceJavalangNodesInList] at hok
      split at hok
      · split at hok
        · exact replaceList_unclassifiable_fails m rest h _ (by assumption)
        · exact Except.noConfusion hok
      · exact Except.noConfusion hok
  | .cons (.glist l1) rest, h, out, hok => by
      simp only [GAttrList.containsUnclassifiable, GAttr.unclassifiable,
        Bool.or_eq_true, Bool.false_eq_true, false_or] at h
      simp only [replaceJavalangNodesInList] at hok
      split at hok
      · split at hok
        · rcases h with h | h
          · exact replaceList_unclassifiable_fails m l1 h _ (by assumption)
          · exact replaceList_unclassifiable_fails m rest h _ (by assumption)
        · exact Except.noConfusion hok
      · exact Except.noConfusion hok
  | .cons (.gint i) rest, h, out, hok => by
      simp only [GAttrList.containsUnclassifiable, GAttr.unclassifiable,
        Bool.or_eq_true, Bool.false_eq_true, false_or] at h
      simp only [replaceJavalangNodesInList] at hok
      split at hok
      · exact replaceList_unclassifiable_fails m rest h _ (by assumption)
      · exact Except.noConfusion hok
  | .cons (.gstr s) rest, h, out, hok => by
      simp only [GAttrList.containsUnclassifiable, GAttr.unclassifiable,
        Bool.or_eq_true, Bool.false_eq_true, false_or] at h
      simp only [replaceJavalangNodesInList] at hok
      split at hok
      · exact replaceList_unclassifiable_fails m rest h _ (by assumption)
      · exact Except.noConfusion hok
  | .cons .gnull rest, h, out, hok => by
      simp only [GAttrList.containsUnclassifiable, GAttr.unclassifiable,
        Bool.or_eq_true, Bool.false_eq_true, false_or] at h
      simp only [replaceJavalangNodesInList] at hok
      split at hok
      · exact replaceList_unclassifiable_fails m rest h _ (by assumption)
      · exact Except.noConfusion hok
  | .cons (.ref j) rest, h, out, hok => by
      simp only [replaceJavalangNodesInList] at hok
      exact Except.noConfusion hok
  | .cons (.ntype t) rest, h, out, hok => by
      simp only [replaceJavalangNodesInList] at hok
      exact Except.noConfusion hok
  | .cons .gother rest, h, out, hok => by
      simp only [replaceJavalangNodesInList] at hok
      exact Except.noConfusion hok

/-- C5, amended: the resolver raises its cannot-classify
`ResolutionError`-kind failure only for values encountered as elements of
list-valued attributes: a list whose head element is unclassifiable fails
immediately, a list containing an unclassifiable element at any nesting
depth never resolves successfully, but an attribute whose own top-level
value is unclassifiable is left unchanged and does not fail. -/
theorem claim_c5_amended :
    (∀ (m : List (Nat × Int)) (v : GAttr) (rest : GAttrList),
      GAttr.unclassifiable v = true →
      replaceJavalangNodesInList m (.cons v rest) =
        .error .cannotClassifyAttribute) ∧
    (∀ (m : List (Nat × Int)) (l : GAttrList),
      GAttrList.containsUnclassifiable l = true →
      ∀ out, replaceJavalangNodesInList m l ≠ .ok out) ∧
    (∀ (m : List (Nat × Int)) (v : GAttr), GAttr.unclassifiable v = true →
      resolveAttrValue m v = .ok v) := by
  refine ⟨replaceList_head_unclassifiable,
    fun m l h out hok => replaceList_unclassifiable_fails m l h out hok,
    ?_⟩
  intro m v h
  cases v with
  | jnode n => simp [GAttr.unclassifiable] at h
  | glist l => simp [GAttr.unclassifiable] at h
  | gint i => simp [GAttr.unclassifiable] at h
  | gstr s => simp [GAttr.unclassifiable] at h
  | gnull => simp [GAttr.unclassifiable] at h
  | ref j => rfl
  | ntype t => rfl
  | gother => rfl

theorem claim_c5_amended_witness :
    GAttr.unclassifiable .gother = true ∧
    replaceJavalangNodesInList [] (.cons .gother .nil) =
      .error .cannotClassifyAttribute ∧
    replaceJavalangNodesInList []
      (.cons (.glist (.cons .gother .nil)) .nil) ≠ .ok .nil ∧
    resolveAttrValue [] .gother = .ok .gother :=
  ⟨rfl, claim_c5_amended.1 [] .gother .nil rfl,
   claim_c5_amended.2.1 [] (.cons (.glist (.cons .gother .nil)) .nil) rfl .nil,
   claim_c5_amended.2.2 [] .gother rfl⟩

/-! ## Theorems: identity density (C2) -/

theorem canonicalIds_succ (n : Nat) :
    canonicalIds (n + 1) = canonicalIds n ++ [((n + 1 : Nat) : Int)] := by
  simp [canonicalIds, List.range_succ]

theorem idsCanonical_snoc (st : BuildState) (attrs : List (String × GAttr))
    (e : List (Int × Int)) (mp : List (Nat × Int)) (h : idsCanonical st) :
    idsCanonical
      ⟨st.nodes ++ [(((st.nodes.length + 1 : Nat) : Int), attrs)], e, mp⟩ := by
  simp only [idsCanonical] at h ⊢
  simp only [List.map_append, List.length_append, List.map_cons, List.map_nil,
    List.length_cons, List.length_nil]
  rw [h, ← canonicalIds_succ]

theorem addCollectionItems_idsCanonical (collIdx : Int) :
    ∀ (items : List JSetItem) (st st2 : BuildState), idsCanonical st →
      addCollectionItems st collIdx items = .ok st2 → idsCanonical st2
  | [], st, st2, h, hok => by
      simp only [addCollectionItems] at hok
      cases hok
      exact h
  | .jstr s :: rest, st, st2, h, hok => by
      simp only [addCollectionItems, addJavalangStringNode,
        BuildState.addNode] at hok
      exact addCollectionItems_idsCanonical collIdx rest _ st2
        (idsCanonical_snoc st (stringNodeAttrs s) _ _ h) hok
  | .jnone :: rest, st, st2, h, hok => by
      simp only [addCollectionItems] at hok
      exact addCollectionItems_idsCanonical collIdx rest st st2 h hok
  | .jother tyName :: rest, st, st2, h, hok => by
      simp only [addCollectionItems] at hok
      exact Except.noConfusion hok

theorem addCollectionNode_idsCanonical (st : BuildState) (items : List JSetItem)
    (st2 : BuildState) (idx : Int) (h : idsCanonical st)
    (hok : addJavalangCollectionNode st items = .ok (st2, idx)) :
    idsCanonical st2 := by
  simp only [addJavalangCollectionNode, BuildState.addNode] at hok
  split at hok
  · rename_i st3 heq
    cases hok
    exact addCollectionItems_idsCanonical _ items _ _
      (idsCanonical_snoc st collectionNodeAttrs _ _ h) heq
  · exact Except.noConfusion hok

mutual

theorem addSubtree_idsCanonical :
    ∀ (v : JChild) (st st2 : BuildState) (i : Int), idsCanonical st →
      addSubtreeFromJavalangNode st v = .ok (st2, i) → idsCanonical st2
  | .jnode (.mk pyid nt attrs children line), st, st2, i, h, hok => by
      simp only [addSubtreeFromJavalangNode, addJavalangStandardNode,
        BuildState.addNode] at hok
      split at hok
      · rename_i st3 heq
        cases hok
        exact addChildren_idsCanonical children _ _ _
          (idsCanonical_snoc st
            (postProcessJavalangAttributes nt
              (setAttr (setAttr attrs.toGraphAttrs "node_type" (.ntype nt))
                "line" (lineAttr line))) _ _ h) heq
      · exact Except.noConfusion hok
  | .jset items, st, st2, i, h, hok => by
      simp only [addSubtreeFromJavalangNode] at hok
      split at hok
      · rename_i st1 idx1 heq
        cases hok
        exact addCollectionNode_idsCanonical st items _ _ h heq
      · exact Except.noConfusion hok
  | .jstr s, st, st2, i, h, hok => by
      simp only [addSubtreeFromJavalangNode, addJavalangStringNode,
        BuildState.addNode] at hok
      cases hok
      exact idsCanonical_snoc st (stringNodeAttrs s) _ _ h
  | .jlist l, st, st2, i, h, hok => by
      simp only [addSubtreeFromJavalangNode] at hok
      cases hok
      exact h
  | .jnone, st, st2, i, h, hok => by
      simp only [addSubtreeFromJavalangNode] at hok
      cases hok
      exact h

theorem addChildren_idsCanonical :
    ∀ (cs : JChildren) (st : BuildState) (parent : Int) (st2 : BuildState),
      idsCanonical st → addJavalangChildren st cs parent = .ok st2 →
      idsCanonical st2
  | .nil, st, parent, st2, h, hok => by
      simp only [addJavalangChildren] at hok
      cases hok
      exact h
  | .cons (.jlist l) rest, st, parent, st2, h, hok => by
      simp only [addJavalangChildren] at hok
      split at hok
      · rename_i st1 heq
        exact addChildren_idsCanonical rest st1 parent st2
          (addChildren_idsCanonical l st parent st1 h heq) hok
      · exact Except.noConfusion hok
  | .cons (.jnode n) rest, st, parent, st2, h, hok => by
      simp only [addJavalangChildren] at hok
      split at hok
      · rename_i st1 idx heq
        refine addChildren_idsCanonical rest _ parent st2 ?_ hok
        have h1 : idsCanonical st1 :=
          addSubtree_idsCanonical (.jnode n) st st1 idx h heq
        split
        · exact h1
        · exact h1
      · exact Except.noConfusion hok
  | .cons (.jset items) rest, st, parent, st2, h, hok => by
      simp only [addJavalangChildren] at hok
      split at hok
      · rename_i st1 idx heq
        refine addChildren_idsCanonical rest _ parent st2 ?_ hok
        have h1 : idsCanonical st1 :=
          addSubtree_idsCanonical (.jset items) st st1 idx h heq
        split
        · exact h1
        · exact h1
      · exact Except.noConfusion hok
  | .cons (.jstr s) rest, st, parent, st2, h, hok => by
      simp only [addJavalangChildren] at hok
      split at hok
      · rename_i st1 idx heq
        refine addChildren_idsCanonical rest _ parent st2 ?_ hok
        have h1 : idsCanonical st1 :=
          addSubtree_idsCanonical (.jstr s) st st1 idx h heq
        split
        · exact h1
        · exact h1
      · exact Except.noConfusion hok
  | .cons .jnone rest, st, parent, st2, h, hok => by
      simp only [addJavalangChildren] at hok
      split at hok
      · rename_i st1 idx heq
        refine addChildren_idsCanonical rest _ parent st2 ?_ hok
        have h1 : idsCanonical st1 :=
          addSubtree_idsCanonical .jnone st st1 idx h heq
        split
        · exact h1
        · exact h1
      · exact Except.noConfusion hok

end

theorem replaceGraph_ok_fst (m : List (Nat × Int)) :
    ∀ (nodes out : List (Int × List (String × GAttr))),
      replaceJavalangNodesInAttributes m nodes = .ok out →
      out.map Prod.fst = nodes.map Prod.fst := by
  intro nodes
  induction nodes with
  | nil =>
      intro out hok
      simp only [replaceJavalangNodesInAttributes] at hok
      cases hok
      rfl
  | cons p0 rest ih =>
      intro out hok
      simp only [replaceJavalangNodesInAttributes] at hok
      split at hok
      · rename_i attrs2 heq
        split at hok
        · rename_i rest2 heq2
          cases hok
          simp [ih rest2 heq2]
        · exact Except.noConfusion hok
      · exact Except.noConfusion hok

/-- C2: in every graph produced by one build operation, the real node ids
are exactly `[1, …, N]` in insertion order, where `N` is the node count:
each insertion assigns id `(number of nodes already in the graph) + 1` and
appends the node, so ids are positive, dense, unique, and strictly
increasing in construction order, and no insertion creates a node with any
other id. -/
theorem claim_c2 (root : JChild) (nodes : List (Int × List (String × GAttr)))
    (edges : List (Int × Int)) (rootId : Int)
    (h : build root = .ok ((nodes, edges), rootId)) :
    nodes.map Prod.fst = canonicalIds nodes.length ∧
    (∀ (st : BuildState) (attrs : List (String × GAttr)),
      (st.addNode attrs).2 = ((st.nodes.length + 1 : Nat) : Int) ∧
      (st.addNode attrs).1.nodes =
        st.nodes ++ [(((st.nodes.length + 1 : Nat) : Int), attrs)]) := by
  constructor
  · simp only [build] at h
    split at h
    · rename_i st rootId2 heq
      split at h
      · rename_i nodes2 heq2
        cases h
        have hinit : idsCanonical ⟨[], [], []⟩ := by
          simp [idsCanonical, canonicalIds]
        have hst : idsCanonical st :=
          addSubtree_idsCanonical root ⟨[], [], []⟩ st _ hinit heq
        have hfst := replaceGraph_ok_fst st.idMap st.nodes _ heq2
        have hlen := congrArg List.length hfst
        simp only [List.length_map] at hlen
        rw [hfst, hlen, hst]
      · exact Except.noConfusion h
    · exact Except.noConfusion h
  · intro st attrs
    exact ⟨rfl, rfl⟩

theorem claim_c2_witness :
    build (.jnode (.mk 1 (.tag "CompilationUnit")
        (.cons "x" (.jnode (.mk 2 (.tag "Literal") .nil .nil (some 3))) .nil)
        (.cons (.jnode (.mk 2 (.tag "Literal") .nil .nil (some 3))) .nil)
        none)) =
      .ok (([((1 : Int),
              [("x", GAttr.ref 2),
               ("node_type", GAttr.ntype (.tag "CompilationUnit")),
               ("line", GAttr.gnull)]),
             ((2 : Int),
              [("node_type", GAttr.ntype (.tag "Literal")),
               ("line", GAttr.gint 3)])],
            [((1 : Int), (2 : Int))]), 1) ∧
    ([((1 : Int),
       [("x", GAttr.ref 2),
        ("node_type", GAttr.ntype (.tag "CompilationUnit")),
        ("line", GAttr.gnull)]),
      ((2 : Int),
       [("node_type", GAttr.ntype (.tag "Literal")),
        ("line", GAttr.gint 3)])] :
      List (Int × List (String × GAttr))).map Prod.fst =
      canonicalIds 2 :=
  ⟨rfl,
   ((claim_c2 (.jnode (.mk 1 (.tag "CompilationUnit")
        (.cons "x" (.jnode (.mk 2 (.tag "Literal") .nil .nil (some 3))) .nil)
        (.cons (.jnode (.mk 2 (.tag "Literal") .nil .nil (some 3))) .nil)
        none))
      [((1 : Int),
        [("x", GAttr.ref 2),
         ("node_type", GAttr.ntype (.tag "CompilationUnit")),
         ("line", GAttr.gnull)]),
       ((2 : Int),
        [("node_type", GAttr.ntype (.tag "Literal")),
         ("line", GAttr.gint 3)])]
      [((1 : Int), (2 : Int))] 1 rfl).1)⟩

/-! ## Theorems: no leaked native references (C1) -/

theorem replaceList_ok_noJNode (m : List (Nat × Int)) :
    ∀ (l out : GAttrList), replaceJavalangNodesInList m l = .ok out →
      GAttrList.hasJNodeL out = false
  | .nil, out, hok => by
      simp only [replaceJavalangNodesInList] at hok
      cases hok
      rfl
  | .cons (.jnode n) rest, out, hok => by
      simp only [replaceJavalangNodesInList] at hok
      split at hok
      · rename_i r heq
        split at hok
        · rename_i rest2 heq2
          cases hok
          have hr : GAttr.hasJNode r = false := by
            simp only [createReferenceToNode] at heq
            split at heq
            · cases heq; rfl
            · exact Except.noConfusion heq
          simp [GAttrList.hasJNodeL, hr,
            replaceList_ok_noJNode m rest rest2 heq2]
        · exact Except.noConfusion hok
      · exact Except.noConfusion hok
  | .cons (.glist l1) rest, out, hok => by
      simp only [replaceJavalangNodesInList] at hok
      split at hok
      · rename_i l2 heq
        split at hok
        · rename_i rest2 heq2
          cases hok
          simp [GAttrList.hasJNodeL, GAttr.hasJNode,
            replaceList_ok_noJNode m l1 l2 heq,
            replaceList_ok_noJNode m rest rest2 heq2]
        · exact Except.noConfusion hok
      · exact Except.noConfusion hok
  | .cons (.gint i) rest, out, hok => by
      simp only [replaceJavalangNodesInList] at hok
      split at hok
      · rename_i rest2 heq2
        cases hok
        simp [GAttrList.hasJNodeL, GAttr.hasJNode,
          replaceList_ok_noJNode m rest rest2 heq2]
      · exact Except.noConfusion hok
  | .cons (.gstr s) rest, out, hok => by
      simp only [replaceJavalangNodesInList] at hok
      split at hok
      · rename_i rest2 heq2
        cases hok
        simp [GAttrList.hasJNodeL, GAttr.hasJNode,
          replaceList_ok_noJNode m rest rest2 heq2]
      · exact Except.noConfusion hok
  | .cons .gnull rest, out, hok => by
      simp only [replaceJavalangNodesInList] at hok
      split at hok
      · rename_i rest2 heq2
        cases hok
        simp [GAttrList.hasJNodeL, GAttr.hasJNode,
          replaceList_ok_noJNode m rest rest2 heq2]
      · exact Except.noConfusion hok
  | .cons (.ref j) rest, out, hok => by
      simp only [replaceJavalangNodesInList] at hok
      exact Except.noConfusion hok
  | .cons (.ntype t) rest, out, hok => by
      simp only [replaceJavalangNodesInList] at hok
      exact Except.noConfusion hok
  | .cons .gother rest, out, hok => by
      simp only [replaceJavalangNodesInList] at hok
      exact Except.noConfusion hok

theorem resolveAttrValue_ok_noJNode (m : List (Nat × Int)) (v out : GAttr)
    (hok : resolveAttrValue m v = .ok out) : GAttr.hasJNode out = false := by
  cases v with
  | jnode n =>
      simp only [resolveAttrValue, createReferenceToNode] at hok
      split at hok
      · cases hok; rfl
      · exact Except.noConfusion hok
  | glist l =>
      simp only [resolveAttrValue] at hok
      split at hok
      · rename_i l2 heq
        cases hok
        simp [GAttr.hasJNode, replaceList_ok_noJNode m l l2 heq]
      · exact Except.noConfusion hok
  | gint i => simp only [resolveAttrValue] at hok; cases hok; rfl
  | gstr s => simp only [resolveAttrValue] at hok; cases hok; rfl
  | gnull => simp only [resolveAttrValue] at hok; cases hok; rfl
  | ref j => simp only [resolveAttrValue] at hok; cases hok; rfl
  | ntype t => simp only [resolveAttrValue] at hok; cases hok; rfl
  | gother => simp only [resolveAttrValue] at hok; cases hok; rfl

theorem resolveAttrs_ok_noJNode (m : List (Nat × Int)) :
    ∀ (attrs out : List (String × GAttr)), resolveAttrs m attrs = .ok out →
      ∀ kv ∈ out, GAttr.hasJNode kv.2 = false := by
  intro attrs
  induction attrs with
  | nil =>
      intro out hok kv hkv
      simp only [resolveAttrs] at hok
      cases hok
      simp at hkv
  | cons kv0 rest ih =>
      intro out hok kv hkv
      simp only [resolveAttrs] at hok
      split at hok
      · rename_i v2 heq
        split at hok
        · rename_i rest2 heq2
          cases hok
          rcases List.mem_cons.mp hkv with h1 | h1
          · subst h1
            exact resolveAttrValue_ok_noJNode m kv0.2 v2 heq
          · exact ih rest2 heq2 kv h1
        · exact Except.noConfusion hok
      · exact Except.noConfusion hok

theorem replaceGraph_ok_noJNode (m : List (Nat × Int)) :
    ∀ (nodes out : List (Int × List (String × GAttr))),
      replaceJavalangNodesInAttributes m nodes = .ok out →
      ∀ p ∈ out, ∀ kv ∈ p.2, GAttr.hasJNode kv.2 = false := by
  intro nodes
  induction nodes with
  | nil =>
      intro out hok p hp
      simp only [replaceJavalangNodesInAttributes] at hok
      cases hok
      simp at hp
  | cons p0 rest ih =>
      intro out hok p hp kv hkv
      simp only [replaceJavalangNodesInAttributes] at hok
      split at hok
      · rename_i attrs2 heq
        split at hok
        · rename_i rest2 heq2
          cases hok
          rcases List.mem_cons.mp hp with h1 | h1
          · subst h1
            exact resolveAttrs_ok_noJNode m p0.2 attrs2 heq kv hkv
          · exact ih rest2 heq2 p h1 kv hkv
        · exact Except.noConfusion hok
      · exact Except.noConfusion hok

/-- C1: in every graph returned by a completed build-plus-resolve
operation, no attribute value is, or contains at any nesting depth of
lists, a raw javalang node; moreover the resolver replaces a javalang node
by a node reference wrapping the id recorded for it in the identity map,
and leaves integers, strings, and absent markers unchanged. -/
theorem claim_c1 (root : JChild) (nodes : List (Int × List (String × GAttr)))
    (edges : List (Int × Int)) (rootId : Int)
    (h : build root = .ok ((nodes, edges), rootId)) :
    (∀ p ∈ nodes, ∀ kv ∈ p.2, GAttr.hasJNode kv.2 = false) ∧
    (∀ (m : List (Nat × Int)) (n : JNode) (i : Int),
      lookupId m n.pyid = some i →
      resolveAttrValue m (.jnode n) = .ok (.ref i)) ∧
    (∀ (m : List (Nat × Int)) (i : Int),
      resolveAttrValue m (.gint i) = .ok (.gint i)) ∧
    (∀ (m : List (Nat × Int)) (s : String),
      resolveAttrValue m (.gstr s) = .ok (.gstr s)) ∧
    (∀ m : List (Nat × Int), resolveAttrValue m .gnull = .ok .gnull) := by
  refine ⟨?_, ?_, fun m i => rfl, fun m s => rfl, fun m => rfl⟩
  · simp only [build] at h
    split at h
    · rename_i st rootId2 heq
      split at h
      · rename_i nodes2 heq2
        cases h
        exact replaceGraph_ok_noJNode st.idMap st.nodes _ heq2
      · exact Except.noConfusion h
    · exact Except.noConfusion h
  · intro m n i hl
    simp [resolveAttrValue, createReferenceToNode, hl]

theorem claim_c1_witness :
    build (.jnode (.mk 1 (.tag "CompilationUnit")
        (.cons "x" (.jnode (.mk 2 (.tag "Literal") .nil .nil (some 3))) .nil)
        (.cons (.jnode (.mk 2 (.tag "Literal") .nil .nil (some 3))) .nil)
        none)) =
      .ok (([((1 : Int),
              [("x", GAttr.ref 2),
               ("node_type", GAttr.ntype (.tag "CompilationUnit")),
               ("line", GAttr.gnull)]),
             ((2 : Int),
              [("node_type", GAttr.ntype (.tag "Literal")),
               ("line", GAttr.gint 3)])],
            [((1 : Int), (2 : Int))]), 1) ∧
    GAttr.hasJNode (GAttr.ref 2) = false :=
  ⟨rfl,
   (claim_c1 (.jnode (.mk 1 (.tag "CompilationUnit")
        (.cons "x" (.jnode (.mk 2 (.tag "Literal") .nil .nil (some 3))) .nil)
        (.cons (.jnode (.mk 2 (.tag "Literal") .nil .nil (some 3))) .nil)
        none))
      [((1 : Int),
        [("x", GAttr.ref 2),
         ("node_type", GAttr.ntype (.tag "CompilationUnit")),
         ("line", GAttr.gnull)]),
       ((2 : Int),
        [("node_type", GAttr.ntype (.tag "Literal")),
         ("line", GAttr.gint 3)])]
      [((1 : Int), (2 : Int))] 1 rfl).1
     _ (List.mem_cons_self _ _) ("x", GAttr.ref 2) (List.mem_cons_self _ _)⟩

/-! ## Theorems: subtree partitioning (C3) -/

theorem runGetSubtrees_append (rootTypes : List ASTNodeType) :
    ∀ (l1 l2 : List (Int × ASTNodeType × DfsEventKind)) (st : SubtreesState),
      runGetSubtrees rootTypes st (l1 ++ l2) =
        ((runGetSubtrees rootTypes (runGetSubtrees rootTypes st l1).1 l2).1,
         (runGetSubtrees rootTypes st l1).2 ++
           (runGetSubtrees rootTypes (runGetSubtrees rootTypes st l1).1 l2).2)
  | [], l2, st => by simp [runGetSubtrees]
  | e :: rest, l2, st => by
      have ih := runGetSubtrees_append rootTypes rest l2
        (getSubtreesStep rootTypes st e).1
      simp only [List.cons_append, runGetSubtrees, List.append_eq] at ih ⊢
      rw [ih]
      simp [List.append_assoc]

mutual

theorem runInsideTree (rootTypes : List ASTNodeType) :
    ∀ (t : RTree) (r : Int) (buf : List Int),
      r ∉ t.preorderIds →
      runGetSubtrees rootTypes ⟨true, r, buf⟩ t.dfsLabeledEvents =
        (⟨true, r, buf ++ t.preorderIds⟩, [])
  | .node i nt cs, r, buf, hr => by
      simp only [RTree.preorderIds] at hr ⊢
      have hne : r ≠ i := fun he => hr (he ▸ List.mem_cons_self i _)
      have hrest : r ∉ RForest.preorderIdsF cs := fun h =>
        hr (List.mem_cons_of_mem i h)
      have hstep : getSubtreesStep rootTypes ⟨true, r, buf⟩ (i, nt, .forward) =
          (⟨true, r, buf ++ [i]⟩, []) := rfl
      have hrev : getSubtreesStep rootTypes
          ⟨true, r, buf ++ i :: RForest.preorderIdsF cs⟩ (i, nt, .reverse) =
          (⟨true, r, buf ++ i :: RForest.preorderIdsF cs⟩, []) := by
        simp [getSubtreesStep, Ne.symm hne]
      simp only [RTree.dfsLabeledEvents, runGetSubtrees, hstep,
        runGetSubtrees_append, runInsideForest rootTypes cs r (buf ++ [i]) hrest,
        hrev, List.append_assoc, List.nil_append, List.append_nil,
        List.singleton_append]

theorem runInsideForest (rootTypes : List ASTNodeType) :
    ∀ (cs : RForest) (r : Int) (buf : List Int),
      r ∉ RForest.preorderIdsF cs →
      runGetSubtrees rootTypes ⟨true, r, buf⟩ (RForest.dfsLabeledEventsF cs) =
        (⟨true, r, buf ++ RForest.preorderIdsF cs⟩, [])
  | .nil, r, buf, _ => by
      simp [RForest.dfsLabeledEventsF, RForest.preorderIdsF, runGetSubtrees]
  | .cons t rest, r, buf, hr => by
      simp only [RForest.preorderIdsF, List.mem_append] at hr ⊢
      have h1 : r ∉ t.preorderIds := fun h => hr (Or.inl h)
      have h2 : r ∉ RForest.preorderIdsF rest := fun h => hr (Or.inr h)
      simp only [RForest.dfsLabeledEventsF, runGetSubtrees_append,
        runInsideTree rootTypes t r buf h1,
        runInsideForest rootTypes rest r (buf ++ t.preorderIds) h2,
        List.append_assoc, List.nil_append, List.append_nil]

end

mutual

theorem runOutsideTree (rootTypes : List ASTNodeType) :
    ∀ t : RTree,
      (∀ i ∈ t.preorderIds, 0 < i) →
      t.preorderIds.Nodup →
      runGetSubtrees rootTypes ⟨false, -1, []⟩ t.dfsLabeledEvents =
        (⟨false, -1, []⟩,
         (t.outermostSubtrees rootTypes).map
           (fun s => (s.rootId, s.preorderIds)))
  | .node i nt cs, hpos, hnd => by
      simp only [RTree.preorderIds] at hpos hnd
      have hi : (0 : Int) < i := hpos i (List.mem_cons_self i _)
      have hnotin : i ∉ RForest.preorderIdsF cs := (List.nodup_cons.mp hnd).1
      by_cases hm : nt ∈ rootTypes
      · have hstep : getSubtreesStep rootTypes ⟨false, -1, []⟩
            (i, nt, .forward) = (⟨true, i, [i]⟩, []) := by
          simp [getSubtreesStep, hm]
        have hrev : getSubtreesStep rootTypes
            ⟨true, i, i :: RForest.preorderIdsF cs⟩ (i, nt, .reverse) =
            (⟨false, -1, []⟩, [(i, i :: RForest.preorderIdsF cs)]) := by
          simp [getSubtreesStep]
        simp only [RTree.dfsLabeledEvents, runGetSubtrees, hstep,
          runGetSubtrees_append,
          runInsideForest rootTypes cs i [i] hnotin, hrev,
          RTree.outermostSubtrees, if_pos hm, List.map_cons, List.map_nil,
          RTree.rootId, RTree.preorderIds, List.append_assoc,
          List.nil_append, List.append_nil, List.singleton_append]
      · have hstep : getSubtreesStep rootTypes ⟨false, -1, []⟩
            (i, nt, .forward) = (⟨false, -1, []⟩, []) := by
          simp [getSubtreesStep, hm]
        have hrev : getSubtreesStep rootTypes ⟨false, -1, []⟩
            (i, nt, .reverse) = (⟨false, -1, []⟩, []) := by
          have : i ≠ (-1 : Int) := by omega
          simp [getSubtreesStep, this]
        have hposf : ∀ j ∈ RForest.preorderIdsF cs, 0 < j := fun j hj =>
          hpos j (List.mem_cons_of_mem i hj)
        simp only [RTree.dfsLabeledEvents, runGetSubtrees, hstep,
          runGetSubtrees_append,
          runOutsideForest rootTypes cs hposf (List.nodup_cons.mp hnd).2,
          hrev, RTree.outermostSubtrees, if_neg hm, List.append_assoc,
          List.nil_append, List.append_nil]

theorem runOutsideForest (rootTypes : List ASTNodeType) :
    ∀ cs : RForest,
      (∀ i ∈ RForest.preorderIdsF cs, 0 < i) →
      (RForest.preorderIdsF cs).Nodup →
      runGetSubtrees rootTypes ⟨false, -1, []⟩ (RForest.dfsLabeledEventsF cs) =
        (⟨false, -1, []⟩,
         (RForest.outermostSubtreesF rootTypes cs).map
           (fun s => (s.rootId, s.preorderIds)))
  | .nil, _, _ => by
      simp [RForest.dfsLabeledEventsF, RForest.outermostSubtreesF,
        runGetSubtrees]
  | .cons t rest, hpos, hnd => by
      simp only [RForest.preorderIdsF] at hpos hnd
      have hpos1 : ∀ i ∈ t.preorderIds, 0 < i := fun i hi =>
        hpos i (List.mem_append.mpr (Or.inl hi))
      have hpos2 : ∀ i ∈ RForest.preorderIdsF rest, 0 < i := fun i hi =>
        hpos i (List.mem_append.mpr (Or.inr hi))
      have hnd1 : t.preorderIds.Nodup := (List.nodup_append.mp hnd).1
      have hnd2 : (RForest.preorderIdsF rest).Nodup :=
        (List.nodup_append.mp hnd).2.1
      simp only [RForest.dfsLabeledEventsF, runGetSubtrees_append,
        runOutsideTree rootTypes t hpos1 hnd1,
        runOutsideForest rootTypes rest hpos2 hnd2,
        RForest.outermostSubtreesF, List.map_append]

end

/-- C3: for any set of target root types and any well-formed graph
(positive, pairwise-distinct node ids), `get_subtrees` yields, in
traversal order, exactly one subtree per outermost node whose type is in
the set — a matching node entered while a previously started matching
subtree is open is absorbed into it — and each yielded subtree consists of
the matching node together with all of its descendants, with the matching
node as root. -/
theorem claim_c3 (rootTypes : List ASTNodeType) (t : RTree)
    (hpos : ∀ i ∈ t.preorderIds, 0 < i)
    (hnd : t.preorderIds.Nodup) :
    getSubtrees rootTypes t =
      (t.outermostSubtrees rootTypes).map
        (fun s => (s.rootId, s.preorderIds)) := by
  rw [getSubtrees, runOutsideTree rootTypes t hpos hnd]

theorem claim_c3_witness :
    (RTree.node 1 (.tag "ClassDeclaration")
        (.cons (.node 2 (.tag "ClassDeclaration") .nil) .nil)).preorderIds.Nodup ∧
    getSubtrees [.tag "ClassDeclaration"]
        (RTree.node 1 (.tag "ClassDeclaration")
          (.cons (.node 2 (.tag "ClassDeclaration") .nil) .nil)) =
      [(1, [1, 2])] :=
  ⟨by decide,
    (claim_c3 [.tag "ClassDeclaration"] _ (by decide) (by decide)).trans
      (by decide)⟩

theorem claim_c10_witness :
    (register false ([(ASTNodeType.STRING, [("f", 7)])] : Registry Nat) 9 "f"
        ([ASTNodeType.COLLECTION] ++ ASTNodeType.STRING :: [])).2 =
      some (.duplicateField "f" ASTNodeType.STRING) ∧
    lookupField
      (getFields
        (register false ([(ASTNodeType.STRING, [("f", 7)])] : Registry Nat) 9 "f"
          ([ASTNodeType.COLLECTION] ++ ASTNodeType.STRING :: [])).1
        ASTNodeType.COLLECTION) "f" = some 9 := by
  obtain ⟨reg2, heq, hkeep⟩ :=
    claim_c10 ([(ASTNodeType.STRING, [("f", 7)])] : Registry Nat) 9 "f"
      [ASTNodeType.COLLECTION] ASTNodeType.STRING [] (by decide) (by decide)
      (by decide)
  rw [heq]
  exact ⟨rfl, hkeep ASTNodeType.COLLECTION (by decide)⟩

end JaPa
